import Mathlib

/-!
Shallow embedding of the Avro C++ binary decoder (`BinaryDecoder.cc`) and of
the JSON schema compiler (`Compiler.cc`), with theorems settling the frozen
claims about them.

The byte stream (`StreamReader` over `InputStream`, not part of the sources)
is modelled as a `List Nat` of bytes; `read()` takes the head and fails like
the stream does when it is exhausted.  Machine integers are modelled as
`Nat` / `Int` with explicit reduction modulo `2 ^ 64` where the C++ code
works with `uint64_t` / `size_t`.
-/

deriving instance DecidableEq for Except

namespace Avro

/-- The distinguishable failure categories raised by the decoder
(`throw Exception(...)` sites in `BinaryDecoder.cc`, plus exhaustion of the
underlying stream). -/
inductive DecodeErr where
  /-- The underlying stream ran out of bytes (`StreamReader::read` past end). -/
  | streamEnd
  /-- `throw Exception("Invalid Avro varint")` in `doDecodeLong`. -/
  | invalidVarint
  /-- `throw Exception("Invalid value for bool")` in `decodeBool`. -/
  | invalidBool
  /-- `throw Exception("Value out of range for Avro int")` in `decodeInt`. -/
  | outOfRange
  /-- `throw Exception("Cannot have negative length")` in `doDecodeLength`. -/
  | negativeLength
deriving DecidableEq, Repr

/-- Whether the continuation bit (`u & 0x80`) of a byte is set. -/
def contBit (u : Nat) : Bool := u / 128 % 2 = 1

/-- The payload bits of a varint byte: `u & 0x7f`.  For natural numbers
`u &&& 0x7f` and `u % 128` agree. -/
def payload (u : Nat) : Nat := u % 128

/-- The accumulation loop of `BinaryDecoder::doDecodeLong`:

```cpp
uint64_t encoded = 0;
int shift = 0;
uint8_t u;
do {
    if (shift >= 64) {
        throw Exception("Invalid Avro varint");
    }
    u = in_.read();
    encoded |= static_cast<uint64_t>(u & 0x7f) << shift;
    shift += 7;
} while (u & 0x80);
```

`encoded` is a `uint64_t`, hence the reduction modulo `2 ^ 64` after the
shift-or step. -/
def varintLoop : List Nat → Nat → Nat → Except DecodeErr (Nat × List Nat)
  | [], _, shift =>
    if 64 ≤ shift then .error .invalidVarint else .error .streamEnd
  | u :: rest, encoded, shift =>
    if 64 ≤ shift then .error .invalidVarint
    else
      let encoded' := (encoded ||| payload u <<< shift) % 2 ^ 64
      if contBit u then varintLoop rest encoded' (shift + 7)
      else .ok (encoded', rest)

/-- Once the shift has reached 64 the loop rejects, whatever the stream. -/
theorem varintLoop_shift_ge_64 {s : List Nat} {encoded shift : Nat}
    (h : 64 ≤ shift) : varintLoop s encoded shift = .error .invalidVarint := by
  cases s <;> simp [varintLoop, h]

/-- Reinterpret an unsigned 64-bit value (a `Nat` below `2 ^ 64`) as a signed
`int64_t`, two's complement. -/
def toInt64 (u : Nat) : Int :=
  if u < 2 ^ 63 then (u : Int) else (u : Int) - 2 ^ 64

/-- Modelled from the spec: `decodeZigzag64` from `Zigzag.hh` (not under
`src/`).  The spec gives the formula `(n >>> 1) ^ -(n & 1)` over unsigned
64-bit semantics, yielding a signed 64-bit integer; `-(n & 1)` in `uint64_t`
arithmetic is all-ones when the low bit is set and zero otherwise. -/
def decodeZigzag64 (n : Nat) : Int :=
  toInt64 ((n >>> 1) ^^^ (if n % 2 = 1 then 2 ^ 64 - 1 else 0))

/-- `BinaryDecoder::doDecodeLong`: run the varint loop from `encoded = 0`,
`shift = 0`, then ZigZag-decode the accumulated unsigned value. -/
def doDecodeLong (s : List Nat) : Except DecodeErr (Int × List Nat) :=
  (varintLoop s 0 0).map (fun p => (decodeZigzag64 p.1, p.2))

/-- `static_cast<size_t>` of a signed 64-bit value (`size_t` is 64 bits wide
on the targets the sources assume): reduction modulo `2 ^ 64`. -/
def toSizeT (v : Int) : Nat := (v % 2 ^ 64).toNat

/-- `static_cast<int32_t>` of a signed 64-bit value: two's-complement
truncation to 32 bits. -/
def toInt32 (v : Int) : Int := (v + 2 ^ 31) % 2 ^ 32 - 2 ^ 31

/-- `BinaryDecoder::decodeLong`. -/
def decodeLong (s : List Nat) : Except DecodeErr (Int × List Nat) :=
  doDecodeLong s

/-- `BinaryDecoder::decodeInt`: a long decode followed by the
`INT32_MIN <= val <= INT32_MAX` range check. -/
def decodeInt (s : List Nat) : Except DecodeErr (Int × List Nat) :=
  match doDecodeLong s with
  | .error e => .error e
  | .ok (val, s') =>
    if val < -(2 ^ 31) ∨ 2 ^ 31 - 1 < val then .error .outOfRange
    else .ok (val, s')

/-- `BinaryDecoder::decodeBool`. -/
def decodeBool (s : List Nat) : Except DecodeErr (Bool × List Nat) :=
  match s with
  | [] => .error .streamEnd
  | v :: rest =>
    if v = 0 then .ok (false, rest)
    else if v = 1 then .ok (true, rest)
    else .error .invalidBool

/-- `BinaryDecoder::decodeEnum`: `static_cast<size_t>(doDecodeLong())`. -/
def decodeEnum (s : List Nat) : Except DecodeErr (Nat × List Nat) :=
  (doDecodeLong s).map (fun p => (toSizeT p.1, p.2))

/-- `BinaryDecoder::decodeUnionIndex`: `static_cast<size_t>(doDecodeLong())`. -/
def decodeUnionIndex (s : List Nat) : Except DecodeErr (Nat × List Nat) :=
  (doDecodeLong s).map (fun p => (toSizeT p.1, p.2))

/-- `BinaryDecoder::doDecodeItemCount`: read a long; when it is negative read
(and discard) a second long — the block byte size — and return the negated
count cast to `size_t`. -/
def doDecodeItemCount (s : List Nat) : Except DecodeErr (Nat × List Nat) :=
  match doDecodeLong s with
  | .error e => .error e
  | .ok (result, s₁) =>
    if result < 0 then
      match doDecodeLong s₁ with
      | .error e => .error e
      | .ok (_, s₂) => .ok (toSizeT (-result), s₂)
    else .ok (toSizeT result, s₁)

/-- `BinaryDecoder::arrayStart`. -/
def arrayStart (s : List Nat) : Except DecodeErr (Nat × List Nat) :=
  doDecodeItemCount s

/-- `BinaryDecoder::mapStart`. -/
def mapStart (s : List Nat) : Except DecodeErr (Nat × List Nat) :=
  doDecodeItemCount s

/-- `BinaryDecoder::arrayNext`: `static_cast<size_t>(doDecodeLong())`. -/
def arrayNext (s : List Nat) : Except DecodeErr (Nat × List Nat) :=
  (doDecodeLong s).map (fun p => (toSizeT p.1, p.2))

/-- `BinaryDecoder::mapNext`: `return doDecodeItemCount();`. -/
def mapNext (s : List Nat) : Except DecodeErr (Nat × List Nat) :=
  doDecodeItemCount s

/-- `StreamReader::skipBytes` (modelled from the spec: the reader advances
`n` bytes and out-of-bytes propagates as the stream's own failure). -/
def skipBytesOp (n : Nat) (s : List Nat) : Except DecodeErr (List Nat) :=
  if n ≤ s.length then .ok (s.drop n) else .error .streamEnd

/-- On success the varint loop consumes at least one byte. -/
theorem varintLoop_length_lt {s : List Nat} {encoded shift v : Nat}
    {s' : List Nat} (h : varintLoop s encoded shift = .ok (v, s')) :
    s'.length < s.length := by
  induction s generalizing encoded shift with
  | nil =>
    rw [varintLoop] at h
    split at h <;> simp_all
  | cons u rest ih =>
    rw [varintLoop] at h
    split at h
    · simp_all
    · simp only at h
      split at h
      · exact Nat.lt_trans (ih h) (by simp)
      · simp only [Except.ok.injEq, Prod.mk.injEq] at h
        simp [← h.2]

/-- On success `doDecodeLong` consumes at least one byte. -/
theorem doDecodeLong_length_lt {s : List Nat} {v : Int} {s' : List Nat}
    (h : doDecodeLong s = .ok (v, s')) : s'.length < s.length := by
  rw [doDecodeLong] at h
  match hv : varintLoop s 0 0 with
  | .error e => rw [hv] at h; simp [Except.map] at h
  | .ok (u, t) =>
    rw [hv] at h
    simp only [Except.map, Except.ok.injEq, Prod.mk.injEq] at h
    exact h.2 ▸ varintLoop_length_lt hv

/-- `skipBytes` never lengthens the stream. -/
theorem skipBytesOp_length_le {n : Nat} {s s' : List Nat}
    (h : skipBytesOp n s = .ok s') : s'.length ≤ s.length := by
  rw [skipBytesOp] at h
  split at h
  · simp only [Except.ok.injEq] at h
    subst h
    simp
  · simp at h

/-- `BinaryDecoder::skipArray`: loop reading block headers; on a negative
header read the block byte size and skip that many bytes, otherwise return
the header cast to `size_t`. -/
def skipArray (s : List Nat) : Except DecodeErr (Nat × List Nat) :=
  match h₁ : doDecodeLong s with
  | .error e => .error e
  | .ok (r, s₁) =>
    if r < 0 then
      match h₂ : doDecodeLong s₁ with
      | .error e => .error e
      | .ok (n, s₂) =>
        match h₃ : skipBytesOp (toSizeT n) s₂ with
        | .error e => .error e
        | .ok s₃ => skipArray s₃
    else .ok (toSizeT r, s₁)
termination_by s.length
decreasing_by
  calc s₃.length ≤ s₂.length := skipBytesOp_length_le h₃
    _ < s₁.length := doDecodeLong_length_lt h₂
    _ < s.length := doDecodeLong_length_lt h₁

/-- `BinaryDecoder::skipMap`: `return skipArray();`. -/
def skipMap (s : List Nat) : Except DecodeErr (Nat × List Nat) :=
  skipArray s

/-- `BinaryDecoder::doDecodeLength`: `ssize_t len = decodeInt();` followed by
the negativity check. -/
def doDecodeLength (s : List Nat) : Except DecodeErr (Nat × List Nat) :=
  match decodeInt s with
  | .error e => .error e
  | .ok (len, s') =>
    if len < 0 then .error .negativeLength else .ok (len.toNat, s')

/-- `StreamReader::readBytes` (modelled from the spec: reads exactly `n`
bytes; out-of-bytes propagates as the stream's own failure). -/
def readBytesOp (n : Nat) (s : List Nat) :
    Except DecodeErr (List Nat × List Nat) :=
  if n ≤ s.length then .ok (s.take n, s.drop n) else .error .streamEnd

/-- `BinaryDecoder::decodeString`: a length followed by that many raw bytes
(returned uninterpreted). -/
def decodeString (s : List Nat) : Except DecodeErr (List Nat × List Nat) :=
  match doDecodeLength s with
  | .error e => .error e
  | .ok (len, s') => readBytesOp len s'

/-- `BinaryDecoder::decodeBytes`: same framing as `decodeString`. -/
def decodeBytes (s : List Nat) : Except DecodeErr (List Nat × List Nat) :=
  match doDecodeLength s with
  | .error e => .error e
  | .ok (len, s') => readBytesOp len s'

/-- A value below `2 ^ n` or-ed with a value shifted left by `n` adds:
the two operands occupy disjoint bit ranges. -/
theorem lor_shiftLeft_eq_add {a b n : Nat} (h : a < 2 ^ n) :
    a ||| (b <<< n) = a + b * 2 ^ n := by
  apply Nat.eq_of_testBit_eq
  intro i
  rw [Nat.testBit_lor, Nat.testBit_shiftLeft]
  rcases Nat.lt_or_ge i n with hi | hi
  · have h2 : ¬ (i ≥ n) := by omega
    simp only [ge_iff_le, h2, decide_False, Bool.false_and, Bool.or_false]
    rw [Nat.testBit_to_div_mod, Nat.testBit_to_div_mod]
    have hdvd : b * 2 ^ n = (b * 2 ^ (n - i)) * 2 ^ i := by
      rw [Nat.mul_assoc, ← Nat.pow_add]
      congr 2
      omega
    rw [hdvd, Nat.add_mul_div_right _ _ (Nat.pos_pow_of_pos i (by norm_num))]
    have heven : (b * 2 ^ (n - i)) % 2 = 0 := by
      have hne : n - i ≠ 0 := by omega
      rcases Nat.exists_eq_succ_of_ne_zero hne with ⟨k, hk⟩
      rw [hk, pow_succ, ← Nat.mul_assoc]
      exact Nat.mul_mod_left _ 2
    rw [decide_eq_decide]
    omega
  · have ha : a.testBit i = false :=
      Nat.testBit_lt_two_pow (Nat.lt_of_lt_of_le h (Nat.pow_le_pow_right (by norm_num) hi))
    simp only [ha, Bool.false_or, ge_iff_le, hi, decide_True, Bool.true_and]
    rw [Nat.testBit_to_div_mod, Nat.testBit_to_div_mod]
    have hq : (a + b * 2 ^ n) / 2 ^ i = b / 2 ^ (i - n) := by
      have hsplit : 2 ^ i = 2 ^ n * 2 ^ (i - n) := by
        rw [← Nat.pow_add]; congr 1; omega
      rw [hsplit, ← Nat.div_div_eq_div_mul,
        Nat.add_mul_div_right _ _ (Nat.pos_pow_of_pos n (by norm_num)),
        Nat.div_eq_of_lt h, Nat.zero_add]
    rw [hq]

/-- The varint loop, entered with shift value `7 * j`, rejects with
`invalidVarint` exactly when the stream still holds `10 - j` bytes all of
which carry the continuation bit: the rejection happens when the shift
reaches 64, i.e. after the tenth continuation byte. -/
theorem varintLoop_invalidVarint_iff (s : List Nat) (encoded j : Nat) :
    varintLoop s encoded (7 * j) = .error .invalidVarint ↔
      (10 - j ≤ s.length ∧ ∀ i, i < 10 - j → contBit (s.getD i 0) = true) := by
  induction s generalizing encoded j with
  | nil =>
    rw [varintLoop]
    rcases Nat.lt_or_ge j 10 with hj | hj
    · have hn : ¬ (64 ≤ 7 * j) := by omega
      rw [if_neg hn]
      simp only [List.length_nil]
      constructor
      · intro habs
        exact absurd habs (by simp)
      · intro ⟨hlen, _⟩
        omega
    · have hy : 64 ≤ 7 * j := by omega
      rw [if_pos hy]
      simp only [List.length_nil, true_iff]
      constructor
      · omega
      · intro i hi
        omega
  | cons u rest ih =>
    rw [varintLoop]
    rcases Nat.lt_or_ge j 10 with hj | hj
    · have hn : ¬ (64 ≤ 7 * j) := by omega
      rw [if_neg hn]
      simp only
      by_cases hc : contBit u
      · rw [if_pos hc]
        have hstep : 7 * j + 7 = 7 * (j + 1) := by ring
        rw [hstep, ih]
        constructor
        · intro ⟨hlen, hall⟩
          refine ⟨by simp; omega, ?_⟩
          intro i hi
          match i with
          | 0 => exact hc
          | i' + 1 =>
            simp only [List.getD_cons_succ]
            exact hall i' (by omega)
        · intro ⟨hlen, hall⟩
          refine ⟨by simp at hlen; omega, ?_⟩
          intro i hi
          have := hall (i + 1) (by omega)
          simpa using this
      · rw [if_neg hc]
        constructor
        · intro habs
          exact absurd habs (by simp)
        · intro ⟨_, hall⟩
          have h0 := hall 0 (by omega)
          simp only [List.getD_cons_zero] at h0
          exact absurd h0 hc
    · have hy : 64 ≤ 7 * j := by omega
      rw [if_pos hy]
      simp only [true_iff]
      constructor
      · simp only [List.length_cons]
        omega
      · intro i hi
        omega

/-- The accumulated value of a successful varint loop run is below `2 ^ 64`
(the accumulator is a `uint64_t`). -/
theorem varintLoop_ok_lt {s : List Nat} {encoded shift v : Nat}
    {s' : List Nat} (h : varintLoop s encoded shift = .ok (v, s')) :
    v < 2 ^ 64 := by
  induction s generalizing encoded shift with
  | nil =>
    rw [varintLoop] at h
    split at h <;> simp_all
  | cons u rest ih =>
    rw [varintLoop] at h
    split at h
    · simp_all
    · simp only at h
      split at h
      · exact ih h
      · simp only [Except.ok.injEq, Prod.mk.injEq] at h
        rw [← h.1]
        exact Nat.mod_lt _ (by norm_num)

/-- Successful runs of the varint loop, characterized: entered at shift
`7 * j` with fewer than `2 ^ (7 * j)` accumulated bits, a successful run
finds the first byte without continuation bit at an index `k` with
`j + k ≤ 9` (so every shift used is `7 * (j + i) ≤ 63`), consumes exactly
the bytes up to it, and accumulates 7 payload bits per byte at shift
`7 * (j + i)`. -/
theorem varintLoop_ok_spec (s : List Nat) :
    ∀ (j encoded v : Nat) (s' : List Nat), j ≤ 9 → encoded < 2 ^ (7 * j) →
    varintLoop s encoded (7 * j) = .ok (v, s') →
    ∃ k, j + k ≤ 9 ∧ contBit (s.getD k 0) = false ∧
      (∀ i, i < k → contBit (s.getD i 0) = true) ∧
      s' = s.drop (k + 1) ∧
      v = (encoded +
        ∑ i in Finset.range (k + 1),
          payload (s.getD i 0) * 2 ^ (7 * (j + i))) % 2 ^ 64 := by
  induction s with
  | nil =>
    intro j encoded v s' hj henc h
    rw [varintLoop] at h
    have hn : ¬ (64 ≤ 7 * j) := by omega
    rw [if_neg hn] at h
    simp at h
  | cons u rest ih =>
    intro j encoded v s' hj henc h
    rw [varintLoop] at h
    have hn : ¬ (64 ≤ 7 * j) := by omega
    rw [if_neg hn] at h
    simp only at h
    have hpay : payload u < 128 := Nat.mod_lt _ (by norm_num)
    have hsum : encoded + payload u * 2 ^ (7 * j) < 2 ^ (7 * (j + 1)) := by
      have h4 : payload u * 2 ^ (7 * j) ≤ 127 * 2 ^ (7 * j) :=
        Nat.mul_le_mul_right _ (by omega)
      calc encoded + payload u * 2 ^ (7 * j)
          < 2 ^ (7 * j) + 127 * 2 ^ (7 * j) := by omega
        _ = 2 ^ (7 * j) * 128 := by ring
        _ = 2 ^ (7 * (j + 1)) := by
            have h3 : 7 * (j + 1) = 7 * j + 7 := by ring
            rw [h3, pow_add]
            norm_num
    have hacc : (encoded ||| payload u <<< (7 * j)) % 2 ^ 64
        = (encoded + payload u * 2 ^ (7 * j)) % 2 ^ 64 := by
      rw [lor_shiftLeft_eq_add henc]
    by_cases hc : contBit u
    · rw [if_pos hc] at h
      have hj9 : j ≤ 8 := by
        by_contra hj8
        have hj' : (64 : Nat) ≤ 7 * j + 7 := by omega
        rw [varintLoop_shift_ge_64 hj'] at h
        exact absurd h (by simp)
      have hlt64 : encoded + payload u * 2 ^ (7 * j) < 2 ^ 64 :=
        Nat.lt_of_lt_of_le hsum (Nat.pow_le_pow_right (by norm_num) (by omega))
      have hacc' : (encoded ||| payload u <<< (7 * j)) % 2 ^ 64
          = encoded + payload u * 2 ^ (7 * j) := by
        rw [hacc, Nat.mod_eq_of_lt hlt64]
      have hstep : 7 * j + 7 = 7 * (j + 1) := by ring
      rw [hstep, hacc'] at h
      obtain ⟨k', hk9, hkc, hkall, hks, hkv⟩ :=
        ih (j + 1) _ v s' (by omega) hsum h
      refine ⟨k' + 1, by omega, by simpa using hkc, ?_, by simpa using hks, ?_⟩
      · intro i hi
        match i with
        | 0 => exact hc
        | i' + 1 =>
          simp only [List.getD_cons_succ]
          exact hkall i' (by omega)
      · have heq : encoded + payload u * 2 ^ (7 * j)
              + ∑ i in Finset.range (k' + 1),
                payload (rest.getD i 0) * 2 ^ (7 * (j + 1 + i))
            = encoded + ∑ i in Finset.range (k' + 1 + 1),
                payload ((u :: rest).getD i 0) * 2 ^ (7 * (j + i)) := by
          rw [Finset.sum_range_succ'
            (fun i => payload ((u :: rest).getD i 0) * 2 ^ (7 * (j + i))) (k' + 1)]
          simp only [List.getD_cons_succ, List.getD_cons_zero, Nat.add_zero]
          have hre : (∑ i in Finset.range (k' + 1),
                payload (rest.getD i 0) * 2 ^ (7 * (j + 1 + i)))
              = ∑ i in Finset.range (k' + 1),
                payload (rest.getD i 0) * 2 ^ (7 * (j + (i + 1))) := by
            refine Finset.sum_congr rfl ?_
            intro i _
            congr 2
            ring
          rw [hre]
          ring
        rw [hkv, heq]
    · rw [if_neg hc] at h
      simp only [Except.ok.injEq, Prod.mk.injEq] at h
      refine ⟨0, by omega, by simpa using hc, by omega, by simp [← h.2], ?_⟩
      rw [← h.1, hacc, Finset.sum_range_one]
      simp only [List.getD_cons_zero, Nat.add_zero]

/-- C1: `doDecodeLong` (hence `decodeLong`, `decodeInt` and the length and
block-header reads built on it) accumulates at most 10 bytes, 7 payload bits
each, at shift values `7 * i` for `i ≤ 9` — that is `0, 7, …, 63`.  It fails
with `InvalidEncoding ("Invalid Avro varint")` exactly when the continuation
bit is still set after the 10th byte is consumed, i.e. when the stream holds
at least 10 bytes and each of the first 10 carries the continuation bit.
When it succeeds, the terminator byte sits at an index `k ≤ 9`, exactly
`k + 1 ≤ 10` bytes are consumed, and no shift of 64 or more is ever used
before the terminator. -/
theorem doDecodeLong_varint_spec (s : List Nat) :
    (doDecodeLong s = .error .invalidVarint ↔
      10 ≤ s.length ∧ ∀ i, i < 10 → contBit (s.getD i 0) = true) ∧
    (∀ (v : Int) (s' : List Nat), doDecodeLong s = .ok (v, s') →
      ∃ k, k ≤ 9 ∧ contBit (s.getD k 0) = false ∧
        (∀ i, i < k → contBit (s.getD i 0) = true) ∧
        s' = s.drop (k + 1) ∧
        v = decodeZigzag64 ((∑ i in Finset.range (k + 1),
          payload (s.getD i 0) * 2 ^ (7 * i)) % 2 ^ 64)) := by
  have hiff := varintLoop_invalidVarint_iff s 0 0
  rw [Nat.mul_zero, Nat.sub_zero] at hiff
  constructor
  · rw [doDecodeLong]
    cases hv : varintLoop s 0 0 with
    | error e =>
      simp only [Except.map]
      constructor
      · intro h
        apply hiff.mp
        rw [hv]
        injection h with h'
        rw [h']
      · intro hcond
        have h2 := hiff.mpr hcond
        rw [hv] at h2
        injection h2 with he
        rw [he]
    | ok p =>
      simp only [Except.map]
      constructor
      · intro h
        cases h
      · intro hcond
        have h2 := hiff.mpr hcond
        rw [hv] at h2
        cases h2
  · intro v s' h
    rw [doDecodeLong] at h
    cases hv : varintLoop s 0 0 with
    | error e =>
      rw [hv] at h
      cases h
    | ok p =>
      rw [hv] at h
      simp only [Except.map, Except.ok.injEq, Prod.mk.injEq] at h
      obtain ⟨h1, h2⟩ := h
      have hv' : varintLoop s 0 (7 * 0) = .ok (p.1, p.2) := by
        rw [Nat.mul_zero]
        exact hv
      obtain ⟨k, hk, hc, hall, hs, hval⟩ :=
        varintLoop_ok_spec s 0 0 p.1 p.2 (by norm_num) (by norm_num) hv'
      refine ⟨k, by omega, hc, hall, by rw [← h2, hs], ?_⟩
      rw [← h1, hval]
      simp only [Nat.zero_add]

/-- Witness for C1: ten bytes `0x80` all carry the continuation bit, so the
decode fails with `InvalidEncoding`. -/
theorem doDecodeLong_varint_spec_witness :
    doDecodeLong (List.replicate 10 128) = .error .invalidVarint :=
  (doDecodeLong_varint_spec (List.replicate 10 128)).1.mpr (by decide)

/-- `decodeZigzag64` of a 64-bit value lies in the signed 64-bit range. -/
theorem decodeZigzag64_bounds {n : Nat} (h : n < 2 ^ 64) :
    -(2 ^ 63) ≤ decodeZigzag64 n ∧ decodeZigzag64 n < 2 ^ 63 := by
  rw [decodeZigzag64, toInt64]
  have hmlt : (n >>> 1) ^^^ (if n % 2 = 1 then 2 ^ 64 - 1 else 0) < 2 ^ 64 := by
    apply Nat.xor_lt_two_pow
    · calc n >>> 1 = n / 2 := Nat.shiftRight_one n
        _ ≤ n := Nat.div_le_self n 2
        _ < 2 ^ 64 := h
    · split
      · omega
      · exact Nat.pos_pow_of_pos 64 (by norm_num)
  generalize (n >>> 1) ^^^ (if n % 2 = 1 then 2 ^ 64 - 1 else 0) = m at hmlt ⊢
  have e63 : (9223372036854775808 : Nat) = 2 ^ 63 := by norm_num
  split
  · rename_i hlt
    constructor <;> [omega; exact_mod_cast hlt]
  · rename_i hge
    rw [Nat.not_lt] at hge
    have h1 : (m : Int) < 2 ^ 64 := by exact_mod_cast hmlt
    have h2 : (2 : Int) ^ 63 ≤ (m : Int) := by exact_mod_cast hge
    constructor <;> [linarith; linarith [show (2:Int) ^ 64 = 2 ^ 63 + 2 ^ 63 by norm_num]]

/-- A successfully decoded long lies in the signed 64-bit range. -/
theorem doDecodeLong_bounds {s : List Nat} {v : Int} {s' : List Nat}
    (h : doDecodeLong s = .ok (v, s')) : -(2 ^ 63) ≤ v ∧ v < 2 ^ 63 := by
  rw [doDecodeLong] at h
  cases hv : varintLoop s 0 0 with
  | error e =>
    rw [hv] at h
    cases h
  | ok p =>
    rw [hv] at h
    simp only [Except.map, Except.ok.injEq, Prod.mk.injEq] at h
    rw [← h.1]
    exact decodeZigzag64_bounds (varintLoop_ok_lt hv)

/-- The `size_t` cast is the identity on non-negative values below `2 ^ 63`. -/
theorem toSizeT_nonneg {v : Int} (h0 : 0 ≤ v) (h1 : v < 2 ^ 63) :
    toSizeT v = v.toNat := by
  rw [toSizeT]
  have e64 : (2 : Int) ^ 64 = 18446744073709551616 := by norm_num
  have e63 : (2 : Int) ^ 63 = 9223372036854775808 := by norm_num
  rw [e64]
  rw [e63] at h1
  omega

/-- The `size_t` cast wraps a negative 64-bit value to `2 ^ 64 + v`, which is
at least `2 ^ 63`. -/
theorem toSizeT_neg {v : Int} (h0 : v < 0) (h1 : -(2 ^ 63) ≤ v) :
    toSizeT v = (2 ^ 64 + v).toNat ∧ 2 ^ 63 ≤ toSizeT v := by
  rw [toSizeT]
  have e64 : (2 : Int) ^ 64 = 18446744073709551616 := by norm_num
  have e63 : (2 : Int) ^ 63 = 9223372036854775808 := by norm_num
  have e63n : (2 : Nat) ^ 63 = 9223372036854775808 := by norm_num
  rw [e64, e63n]
  rw [e63] at h1
  constructor <;> omega

/-- The `size_t` cast of the negation of a negative 64-bit value is its
absolute value (matching `static_cast<size_t>(-result)` in the sources). -/
theorem toSizeT_natAbs_of_neg {v : Int} (h0 : v < 0) (h1 : -(2 ^ 63) ≤ v) :
    toSizeT (-v) = v.natAbs := by
  rw [toSizeT]
  have e64 : (2 : Int) ^ 64 = 18446744073709551616 := by norm_num
  have e63 : (2 : Int) ^ 63 = 9223372036854775808 := by norm_num
  rw [e64]
  rw [e63] at h1
  omega

/-- C2: `arrayStart` and `mapStart` both run the block-framing helper
`doDecodeItemCount`: they read one ZigZag long header `r`; when `r` is
negative they read one further ZigZag long (the block byte size), discard
its value, and return `|r|`; when `r` is non-negative they return `r`
without reading a second long. -/
theorem arrayStart_mapStart_spec (s : List Nat) (r : Int) (s₁ : List Nat)
    (h : doDecodeLong s = .ok (r, s₁)) :
    mapStart s = arrayStart s ∧
    (0 ≤ r → arrayStart s = .ok (r.toNat, s₁)) ∧
    (r < 0 → arrayStart s = (doDecodeLong s₁).map (fun p => (r.natAbs, p.2))) := by
  obtain ⟨hlo, hhi⟩ := doDecodeLong_bounds h
  refine ⟨rfl, ?_, ?_⟩
  · intro h0
    rw [arrayStart, doDecodeItemCount, h]
    dsimp only
    rw [if_neg (by omega), toSizeT_nonneg h0 hhi]
  · intro hneg
    rw [arrayStart, doDecodeItemCount, h]
    dsimp only
    rw [if_pos hneg]
    cases h2 : doDecodeLong s₁ with
    | error e => rfl
    | ok p =>
      simp only [Except.map]
      have habs : toSizeT (-r) = r.natAbs := toSizeT_natAbs_of_neg hneg hlo
      rw [habs]

/-- Witness for C2 at the stream `[1, 2]`: the header decodes to `-1`, so a
second long is read and discarded and `|-1| = 1` is returned. -/
theorem arrayStart_mapStart_spec_witness :
    arrayStart [1, 2] = (doDecodeLong [2]).map (fun p => ((-1 : Int).natAbs, p.2)) :=
  (arrayStart_mapStart_spec [1, 2] (-1) [2] (by decide)).2.2 (by decide)

/-- C3 counterexample: on the stream `[1, 2]` — header `-1` followed by the
long `1` — `mapNext` consumes both longs and returns `1`, while the claim
predicts a single raw ZigZag long reinterpreted as unsigned
(`2 ^ 64 - 1`) with the byte-size long left unconsumed, which is what
`arrayNext` returns. -/
theorem mapNext_counterexample :
    mapNext [1, 2] = .ok (1, []) ∧
    arrayNext [1, 2] = .ok (2 ^ 64 - 1, [2]) ∧
    mapNext [1, 2] ≠ .ok (2 ^ 64 - 1, [2]) := by decide

/-- C3 amended: `arrayNext` reads exactly one ZigZag long and returns it
reinterpreted as an unsigned size, without consuming a trailing byte-size
long; `mapNext`, however, runs the block-framing helper `doDecodeItemCount`,
so on a negative header it additionally reads and discards the byte-size
long and returns the absolute item count. -/
theorem arrayNext_mapNext_spec (s : List Nat) (r : Int) (s₁ : List Nat)
    (h : doDecodeLong s = .ok (r, s₁)) :
    arrayNext s = .ok (toSizeT r, s₁) ∧
    (0 ≤ r → mapNext s = .ok (r.toNat, s₁)) ∧
    (r < 0 → toSizeT r = (2 ^ 64 + r).toNat ∧
      mapNext s = (doDecodeLong s₁).map (fun p => (r.natAbs, p.2))) := by
  obtain ⟨hlo, hhi⟩ := doDecodeLong_bounds h
  refine ⟨by rw [arrayNext, h]; rfl, ?_, ?_⟩
  · intro h0
    rw [mapNext, doDecodeItemCount, h]
    dsimp only
    rw [if_neg (by omega), toSizeT_nonneg h0 hhi]
  · intro hneg
    refine ⟨(toSizeT_neg hneg hlo).1, ?_⟩
    rw [mapNext, doDecodeItemCount, h]
    dsimp only
    rw [if_pos hneg]
    cases h2 : doDecodeLong s₁ with
    | error e => rfl
    | ok p =>
      simp only [Except.map]
      have habs : toSizeT (-r) = r.natAbs := toSizeT_natAbs_of_neg hneg hlo
      rw [habs]

/-- Witness for C3's amended claim at the stream `[1, 2]`. -/
theorem arrayNext_mapNext_spec_witness :
    arrayNext [1, 2] = .ok (toSizeT (-1), [2]) :=
  (arrayNext_mapNext_spec [1, 2] (-1) [2] (by decide)).1

/-- Unfolding of `skipArray` when the header read succeeds with a
non-negative value: return it cast to `size_t`. -/
theorem skipArray_eq_nonneg {s : List Nat} {r : Int} {s₁ : List Nat}
    (h : doDecodeLong s = .ok (r, s₁)) (h0 : ¬ r < 0) :
    skipArray s = .ok (toSizeT r, s₁) := by
  rw [skipArray.eq_def]
  split
  · rename_i e he
    rw [h] at he
    cases he
  · rename_i r' s₁' he
    rw [h] at he
    injection he with he'
    injection he' with he1 he2
    subst he1
    subst he2
    rw [if_neg h0]

/-- Unfolding of `skipArray` when the header is negative and the byte-size
read and the byte skip both succeed: loop on the remaining stream. -/
theorem skipArray_eq_neg {s : List Nat} {r n : Int} {s₁ s₂ s₃ : List Nat}
    (h : doDecodeLong s = .ok (r, s₁)) (hneg : r < 0)
    (h2 : doDecodeLong s₁ = .ok (n, s₂))
    (h3 : skipBytesOp (toSizeT n) s₂ = .ok s₃) :
    skipArray s = skipArray s₃ := by
  conv_lhs => rw [skipArray.eq_def]
  split
  · rename_i e he
    rw [h] at he
    cases he
  · rename_i r' s₁' he
    rw [h] at he
    injection he with he'
    injection he' with he1 he2
    subst he1
    subst he2
    rw [if_pos hneg]
    split
    · rename_i e he2'
      rw [h2] at he2'
      cases he2'
    · rename_i n' s₂' he2'
      rw [h2] at he2'
      injection he2' with he2''
      injection he2'' with hn hs
      subst hn
      subst hs
      split
      · rename_i e he3
        rw [h3] at he3
        cases he3
      · rename_i s₃' he3
        rw [h3] at he3
        injection he3 with he3'
        subst he3'
        rfl

/-- C4 counterexample: on the stream `[2]` — a single block header that
ZigZag-decodes to `+1` — `skipArray` returns `1`, not `0`: on a
non-negative header it returns the header value immediately without
draining the block's items. -/
theorem skipArray_counterexample :
    skipArray [2] = .ok (1, []) ∧ (1 : Nat) ≠ 0 := by
  refine ⟨?_, by decide⟩
  rw [skipArray.eq_def]
  decide

/-- C4 amended: `skipArray` (and `skipMap`, which literally calls it) loops
reading block headers; on a negative header it reads the byte-size long and
skips that many bytes, then continues; on a non-negative header `r` it
returns `r` immediately — so it returns `0` exactly when the terminating
zero header is reached, and it drains only blocks that carry a byte size. -/
theorem skipArray_spec (s : List Nat) (r : Int) (s₁ : List Nat)
    (h : doDecodeLong s = .ok (r, s₁)) :
    skipMap s = skipArray s ∧
    (0 ≤ r → skipArray s = .ok (r.toNat, s₁)) ∧
    (r < 0 → ∀ (n : Int) (s₂ s₃ : List Nat),
      doDecodeLong s₁ = .ok (n, s₂) → skipBytesOp (toSizeT n) s₂ = .ok s₃ →
      skipArray s = skipArray s₃) := by
  obtain ⟨hlo, hhi⟩ := doDecodeLong_bounds h
  refine ⟨rfl, ?_, ?_⟩
  · intro h0
    rw [skipArray_eq_nonneg h (by omega), toSizeT_nonneg h0 hhi]
  · intro hneg n s₂ s₃ h2 h3
    exact skipArray_eq_neg h hneg h2 h3

/-- Witness for C4's amended claim: a zero header terminates immediately
with result `0`. -/
theorem skipArray_spec_witness : skipArray [0] = .ok ((0 : Int).toNat, []) :=
  (skipArray_spec [0] 0 [] (by decide)).2.1 (by decide)

/-- Closed form of `decodeInt` once the underlying long decode is known. -/
theorem decodeInt_eq {s : List Nat} {v : Int} {s₁ : List Nat}
    (h : doDecodeLong s = .ok (v, s₁)) :
    decodeInt s = if -(2 ^ 31) ≤ v ∧ v ≤ 2 ^ 31 - 1
      then .ok (v, s₁) else .error .outOfRange := by
  rw [decodeInt, h]
  dsimp only
  by_cases hc : -(2 ^ 31) ≤ v ∧ v ≤ 2 ^ 31 - 1
  · rw [if_neg (by omega), if_pos hc]
  · rw [if_pos (by omega), if_neg hc]

/-- C5 counterexample: the length read by `decodeString` / `decodeBytes`
goes through `decodeInt`, not through a full long decode.  The stream
`[128, 128, 128, 128, 16]` encodes the long `2 ^ 31 = INT32_MAX + 1`; the
claim says any non-negative signed 64-bit length is accepted (here the
decode would then fail with the stream's own exhaustion error), but the
code rejects it with `OutOfRange`.  Likewise `[129, 128, 128, 128, 16]`
encodes `-(2 ^ 31) - 1`, where the claim predicts
`InvalidEncoding ("Negative length")`, but the code again raises
`OutOfRange`. -/
theorem decodeString_counterexample :
    doDecodeLong [128, 128, 128, 128, 16] = .ok (2 ^ 31, []) ∧
    decodeString [128, 128, 128, 128, 16] = .error .outOfRange ∧
    decodeBytes [128, 128, 128, 128, 16] = .error .outOfRange ∧
    DecodeErr.outOfRange ≠ DecodeErr.streamEnd ∧
    doDecodeLong [129, 128, 128, 128, 16] = .ok (-(2 ^ 31) - 1, []) ∧
    decodeString [129, 128, 128, 128, 16] = .error .outOfRange ∧
    DecodeErr.outOfRange ≠ DecodeErr.negativeLength := by decide

/-- C5 amended: `decodeString` and `decodeBytes` read their length via
`decodeInt`, so the length may be any non-negative signed **32-bit** value,
after which exactly that many raw bytes are read; a length decoding to a
negative 32-bit value fails with `InvalidEncoding ("Negative length")`
before any data bytes are consumed, and a length outside the signed 32-bit
range altogether fails with `OutOfRange`. -/
theorem decodeString_spec (s : List Nat) (v : Int) (s₁ : List Nat)
    (h : doDecodeLong s = .ok (v, s₁)) :
    decodeBytes s = decodeString s ∧
    (0 ≤ v ∧ v ≤ 2 ^ 31 - 1 → decodeString s = readBytesOp v.toNat s₁) ∧
    (-(2 ^ 31) ≤ v ∧ v < 0 → decodeString s = .error .negativeLength) ∧
    (v < -(2 ^ 31) ∨ 2 ^ 31 - 1 < v → decodeString s = .error .outOfRange) := by
  refine ⟨rfl, ?_, ?_, ?_⟩
  · intro ⟨h0, h31⟩
    have hlen : doDecodeLength s = .ok (v.toNat, s₁) := by
      rw [doDecodeLength, decodeInt_eq h, if_pos (by omega)]
      dsimp only
      rw [if_neg (by omega)]
    rw [decodeString, hlen]
  · intro ⟨h31, h0⟩
    have hlen : doDecodeLength s = .error .negativeLength := by
      rw [doDecodeLength, decodeInt_eq h, if_pos (by omega)]
      dsimp only
      rw [if_pos (by omega)]
    rw [decodeString, hlen]
  · intro hout
    have hlen : doDecodeLength s = .error .outOfRange := by
      rw [doDecodeLength, decodeInt_eq h, if_neg (by omega)]
    rw [decodeString, hlen]

/-- Witness for C5's amended claim at the stream `[4, 97, 98]`: length `2`,
then exactly the two bytes `[97, 98]` are consumed. -/
theorem decodeString_spec_witness :
    decodeString [4, 97, 98] = readBytesOp ((2 : Int).toNat) [97, 98] :=
  (decodeString_spec [4, 97, 98] 2 [97, 98] (by decide)).2.1 (by decide)

/-- C6: `decodeInt` decodes one ZigZag varint long `v` and returns it when
`INT32_MIN ≤ v ≤ INT32_MAX`, failing with `OutOfRange` otherwise; in
particular the encoding of `INT32_MAX + 1 = 2 ^ 31` (bytes
`80 80 80 80 10`) is rejected with `OutOfRange`. -/
theorem decodeInt_spec :
    (∀ (s : List Nat) (v : Int) (s₁ : List Nat), doDecodeLong s = .ok (v, s₁) →
      decodeInt s = if -(2 ^ 31) ≤ v ∧ v ≤ 2 ^ 31 - 1
        then .ok (v, s₁) else .error .outOfRange) ∧
    decodeInt [128, 128, 128, 128, 16] = .error .outOfRange := by
  constructor
  · intro s v s₁ h
    exact decodeInt_eq h
  · decide

/-- Witness for C6 at the stream `[4]`: the long `2` fits in 32 bits. -/
theorem decodeInt_spec_witness :
    decodeInt [4] = if -(2 ^ 31) ≤ (2 : Int) ∧ (2 : Int) ≤ 2 ^ 31 - 1
      then .ok (2, []) else .error .outOfRange :=
  decodeInt_spec.1 [4] 2 [] (by decide)

/-- C10: when the varint decodes successfully, `decodeEnum` and
`decodeUnionIndex` never fail and perform no range check: both return the
signed long reinterpreted modulo `2 ^ 64` as an unsigned size; a negative
index therefore comes back as a value of at least `2 ^ 63` instead of being
rejected. -/
theorem decodeEnum_decodeUnionIndex_spec (s : List Nat) (v : Int)
    (s₁ : List Nat) (h : doDecodeLong s = .ok (v, s₁)) :
    decodeEnum s = .ok (toSizeT v, s₁) ∧
    decodeUnionIndex s = .ok (toSizeT v, s₁) ∧
    (0 ≤ v → toSizeT v = v.toNat) ∧
    (v < 0 → toSizeT v = (2 ^ 64 + v).toNat ∧ 2 ^ 63 ≤ toSizeT v) := by
  obtain ⟨hlo, hhi⟩ := doDecodeLong_bounds h
  refine ⟨by rw [decodeEnum, h]; rfl, by rw [decodeUnionIndex, h]; rfl, ?_, ?_⟩
  · intro h0
    exact toSizeT_nonneg h0 hhi
  · intro hneg
    exact toSizeT_neg hneg hlo

/-- Witness for C10 at the stream `[1]`: the long `-1` comes back from
`decodeEnum` as the unsigned value `2 ^ 64 - 1`. -/
theorem decodeEnum_decodeUnionIndex_spec_witness :
    decodeEnum [1] = .ok (toSizeT (-1), []) :=
  (decodeEnum_decodeUnionIndex_spec [1] (-1) [] (by decide)).1

/-!
Schema compiler (`Compiler.cc`).  The JSON DOM (`json::Entity`, built by
`JsonDom`, not under `src/`) is modelled as an inductive with the same
variant set `{null, bool, long, double, string, array, object}`; an object
is an association list looked up by key, matching `map<string, Entity>`
lookup.  IEEE double payloads are abstracted away (no claim depends on a
floating-point value).  The C++ recursion over nodes and entities is plainly
terminating on the inputs the compiler builds, but not structurally so; the
embedding threads an explicit fuel argument, with theorems stated for every
sufficient fuel.
-/

/-- The JSON DOM variant (`json::EntityType`). -/
inductive EntityType where
  | etNull
  | etBool
  | etLong
  | etDouble
  | etString
  | etArray
  | etObject
deriving DecidableEq, Repr

/-- The JSON DOM entity (`json::Entity`).  `double` carries no payload:
floating-point values cannot be embedded and no claim observes one. -/
inductive Entity where
  | null
  | bool (b : Bool)
  | long (n : Int)
  | double
  | string (s : String)
  | array (xs : List Entity)
  | object (m : List (String × Entity))

/-- `Entity::type()`. -/
def Entity.etype : Entity → EntityType
  | .null => .etNull
  | .bool _ => .etBool
  | .long _ => .etLong
  | .double => .etDouble
  | .string _ => .etString
  | .array _ => .etArray
  | .object _ => .etObject

/-- A fully-qualified name: namespace plus simple name (`avro::Name`).
Equality is componentwise, as in the source. -/
structure Name where
  ns : String
  simpleName : String
deriving DecidableEq, Repr

/-- Split a character list at its last `'.'`: `some (before, after)` when a
dot exists, `none` otherwise. -/
def splitAtLastDot : List Char → Option (List Char × List Char)
  | [] => none
  | c :: cs =>
    match splitAtLastDot cs with
    | some (nsPart, simplePart) => some (c :: nsPart, simplePart)
    | none => if c = '.' then some ([], cs) else none

/-- `isFullName`: the name string contains a dot
(`s.find('.') != string::npos`). -/
def isFullName (s : String) : Bool := s.data.any (fun c => c == '.')

/-- `Name(name)` on a full name: namespace is everything before the last
dot, the simple name everything after it. -/
def parseFullName (s : String) : Name :=
  match splitAtLastDot s.data with
  | some (nsPart, simplePart) => ⟨String.mk nsPart, String.mk simplePart⟩
  | none => ⟨"", s⟩

/-- `getName(name, ns)`: a full name carries its own namespace, otherwise
the enclosing namespace applies. -/
def getNameStr (name ns : String) : Name :=
  if isFullName name then parseFullName name else ⟨ns, name⟩

/-- The schema node graph (`avro::Node` and its concrete subclasses).  Doc
strings and logical-type overlays are not stored on nodes (see
`nodeLogicalType` for the overlay); record default values are materialized
for their error behaviour but not stored (no claim observes them). -/
inductive Node where
  | null
  | bool
  | int
  | long
  | float
  | double
  | string
  | bytes
  | record (name : Name) (fieldNames : List String) (fields : List Node)
  | enum (name : Name) (symbols : List String)
  | array (item : Node)
  | map (value : Node)
  | union (branches : List Node)
  | fixed (name : Name) (size : Int)
  | symbolic (name : Name)

/-- Lookup in the symbol table (`SymbolTable = map<Name, NodePtr>`). -/
def stFind (st : List (Name × Node)) (n : Name) : Option Node :=
  match st with
  | [] => none
  | (k, v) :: rest => if k = n then some v else stFind rest n

/-- `st[nm] = result`: `std::map::operator[]` inserts or overwrites. -/
def stInsert (st : List (Name × Node)) (n : Name) (v : Node) :
    List (Name × Node) :=
  match st with
  | [] => [(n, v)]
  | (k, w) :: rest =>
    if k = n then (k, v) :: rest else (k, w) :: stInsert rest n v

/-- The distinguishable compile failures (`throw Exception(...)` sites in
`Compiler.cc`).  `recursionLimit` is the fuel artifact of the embedding and
corresponds to no source failure. -/
inductive CompileErr where
  /-- `"Missing Json field"` in `findField`. -/
  | missingField (fieldName : String)
  /-- `"Json field is not a ..."` in `ensureType` / the namespace check. -/
  | typeMismatch (fieldName : String)
  /-- `"Unknown type: ..."` in the string form of `makeNode`. -/
  | unknownType
  /-- `"Unknown type definition"` in the object form of `makeNode`. -/
  | unknownTypeDef
  /-- `"Invalid Avro type"` in the entity dispatch of `makeNode`. -/
  | invalidAvroType
  /-- `"Size for fixed is not positive"` in `makeFixedNode`. -/
  | badSize
  /-- `"Enum symbol not a string"` in `makeEnumNode`. -/
  | badSymbol
  /-- `"Unexpected type for default value"` in `assertType`, and the other
  default-materialization shape failures. -/
  | badDefault
  /-- `"No value found in default for ..."` in the record case of
  `makeGenericDatum`. -/
  | missingDefault
  /-- `Entity::objectValue` on a non-object field entity. -/
  | badObjectValue
  /-- Out of fuel (artifact of the embedding, unreachable at sufficient
  fuel). -/
  | recursionLimit
deriving DecidableEq, Repr

/-- The default-value container (`GenericDatum` and friends).  Float and
double payloads are abstracted, as in `Entity`. -/
inductive Datum where
  | null
  | bool (b : Bool)
  | int (v : Int)
  | long (v : Int)
  | float
  | double
  | string (s : String)
  | bytes (bs : List Nat)
  | record (n : Node) (fields : List Datum)
  | enum (n : Node) (symbol : String)
  | array (n : Node) (items : List Datum)
  | map (n : Node) (entries : List (String × Datum))
  | union (n : Node) (branch : Nat) (inner : Datum)
  | fixed (n : Node) (bs : List Nat)

/-- Key lookup in a JSON object (`Object::find`). -/
def objFind (m : List (String × Entity)) (k : String) : Option Entity :=
  match m with
  | [] => none
  | (k', v) :: rest => if k' = k then some v else objFind rest k

/-- `containsField`. -/
def containsField (m : List (String × Entity)) (k : String) : Bool :=
  (objFind m k).isSome

/-- `findField`: missing key fails. -/
def findField (m : List (String × Entity)) (k : String) :
    Except CompileErr Entity :=
  match objFind m k with
  | some v => .ok v
  | none => .error (.missingField k)

/-- `getStringField` = `findField` + `ensureType<string>` + `stringValue`. -/
def getStringField (m : List (String × Entity)) (k : String) :
    Except CompileErr String := do
  match (← findField m k) with
  | .string s => .ok s
  | _ => .error (.typeMismatch k)

/-- `getLongField` = `findField` + `ensureType<int64_t>` + `longValue`. -/
def getLongField (m : List (String × Entity)) (k : String) :
    Except CompileErr Int := do
  match (← findField m k) with
  | .long n => .ok n
  | _ => .error (.typeMismatch k)

/-- `getArrayField` = `findField` + `ensureType<Array>` + `arrayValue`. -/
def getArrayField (m : List (String × Entity)) (k : String) :
    Except CompileErr (List Entity) := do
  match (← findField m k) with
  | .array xs => .ok xs
  | _ => .error (.typeMismatch k)

/-- `unescape`: replace every `\"` by `"` (the only escape the compiler
reverses itself). -/
def unescapeChars : List Char → List Char
  | [] => []
  | '\\' :: '"' :: rest => '"' :: unescapeChars rest
  | c :: rest => c :: unescapeChars rest

/-- `getDocField`: the `"doc"` string field, unescaped. -/
def getDocField (m : List (String × Entity)) : Except CompileErr String := do
  let d ← getStringField m "doc"
  .ok (String.mk (unescapeChars d.data))

/-- `toBin`: a string copied byte for byte into a byte vector. -/
def toBin (s : String) : List Nat := s.data.map (fun c => c.toNat % 256)

/-- The logical-type tags (`LogicalType::Type`). -/
inductive LogicalTypeKind where
  | none
  | decimal
  | date
  | timeMillis
  | timeMicros
  | timestampMillis
  | timestampMicros
  | duration
  | uuid
deriving DecidableEq, Repr

/-- `avro::LogicalType`: a tag plus `(precision, scale)` for DECIMAL. -/
structure LogicalType where
  kind : LogicalTypeKind
  precision : Int
  scale : Int
deriving DecidableEq, Repr

/-- Modelled from the spec: `LogicalType::setPrecision` (`LogicalType.cc`
is not under `src/`).  The spec records only that DECIMAL carries an
optional `(precision, scale)` pair, so the setter is a plain field
update. -/
def LogicalType.setPrecision (lt : LogicalType) (p : Int) : LogicalType :=
  { lt with precision := p }

/-- Modelled from the spec: `LogicalType::setScale` (`LogicalType.cc` is
not under `src/`), a plain field update like `setPrecision`. -/
def LogicalType.setScale (lt : LogicalType) (sc : Int) : LogicalType :=
  { lt with scale := sc }

/-- The recognized parameterless logical-type strings of `makeLogicalType`;
anything else leaves the tag NONE. -/
def recognizeLogicalType (t : String) : LogicalTypeKind :=
  if t = "date" then .date
  else if t = "time-millis" then .timeMillis
  else if t = "time-micros" then .timeMicros
  else if t = "timestamp-millis" then .timestampMillis
  else if t = "timestamp-micros" then .timestampMicros
  else if t = "duration" then .duration
  else if t = "uuid" then .uuid
  else .none

/-- The body of the `try` block in `makeLogicalType`'s decimal branch:
read the required `"precision"` long, then the optional `"scale"` long. -/
def decimalParams (m : List (String × Entity)) : Except CompileErr LogicalType := do
  let p ← getLongField m "precision"
  let base := LogicalType.setPrecision ⟨.decimal, 0, 0⟩ p
  if containsField m "scale" then do
    let sc ← getLongField m "scale"
    pure (base.setScale sc)
  else
    pure base

/-- `makeLogicalType`: absent attribute means NONE; `"decimal"` reads its
parameters inside a `catch`-all that downgrades any failure to NONE; other
recognized strings set their tag; unrecognized strings give NONE.  The
`getStringField` failure on a non-string attribute escapes this function
(it is caught by `makeNode`, see `nodeLogicalType`). -/
def makeLogicalType (m : List (String × Entity)) :
    Except CompileErr LogicalType :=
  if ¬ containsField m "logicalType" then .ok ⟨.none, 0, 0⟩
  else do
    let typeField ← getStringField m "logicalType"
    if typeField = "decimal" then
      match decimalParams m with
      | .ok lt => .ok lt
      | .error _ => .ok ⟨.none, 0, 0⟩
    else
      .ok ⟨recognizeLogicalType typeField, 0, 0⟩

/-- The logical type an object-form node ends up with: `makeNode` wraps
`result->setLogicalType(makeLogicalType(e, m))` in a `try`/`catch` that
ignores the failure, leaving the node's initial NONE.
`NodeImpl::setLogicalType` is not under `src/`; the spec mandates that a
malformed logical type be ignored and specifies no further validation, so a
successfully built overlay is attached as is. -/
def nodeLogicalType (m : List (String × Entity)) : LogicalType :=
  match makeLogicalType m with
  | .ok lt => lt
  | .error _ => ⟨.none, 0, 0⟩

/-- The one-step symbolic resolution at the top of `makeGenericDatum`:
`if (t == AVRO_SYMBOLIC) { n = st.find(n->name())->second; t = n->type(); }`.
Dereferencing a missing entry is undefined behaviour in the source (the
compiler always registers the name first); it is modelled as a failure. -/
def resolveSymbolic (n : Node) (st : List (Name × Node)) :
    Except CompileErr Node :=
  match n with
  | .symbolic nm =>
    match stFind st nm with
    | some t => .ok t
    | none => .error .unknownType
  | _ => .ok n

/-- `makeGenericDatum(n, e, st)`: materialize a JSON default value against a
schema node.  One symbolic hop is resolved up front; then the switch on the
node type checks the JSON form (`assertType`, modelled by matching the
entity constructor directly — a mismatch is the `badDefault` failure) and
recurses: records over their fields by name, arrays over elements, maps
over entries, and a union always through branch 0 with the same entity. -/
def makeGenericDatum : Nat → Node → Entity → List (Name × Node) →
    Except CompileErr Datum
  | 0, _, _, _ => .error .recursionLimit
  | fuel + 1, n0, e, st => do
    let n ← resolveSymbolic n0 st
    match n with
    | .null =>
      match e with
      | .null => .ok .null
      | _ => .error .badDefault
    | .bool =>
      match e with
      | .bool b => .ok (.bool b)
      | _ => .error .badDefault
    | .int =>
      match e with
      | .long v => .ok (.int (toInt32 v))
      | _ => .error .badDefault
    | .long =>
      match e with
      | .long v => .ok (.long v)
      | _ => .error .badDefault
    | .float =>
      match e with
      | .long _ => .ok .float
      | .double => .ok .float
      | _ => .error .badDefault
    | .double =>
      match e with
      | .long _ => .ok .double
      | .double => .ok .double
      | _ => .error .badDefault
    | .string =>
      match e with
      | .string s => .ok (.string s)
      | _ => .error .badDefault
    | .bytes =>
      match e with
      | .string s => .ok (.bytes (toBin s))
      | _ => .error .badDefault
    | .record nm names fields =>
      match e with
      | .object m => do
        let ds ← (names.zip fields).mapM (fun nf =>
          match objFind m nf.1 with
          | none => .error .missingDefault
          | some fe => makeGenericDatum fuel nf.2 fe st)
        .ok (.record (.record nm names fields) ds)
      | _ => .error .badDefault
    | .enum nm syms =>
      match e with
      | .string s => .ok (.enum (.enum nm syms) s)
      | _ => .error .badDefault
    | .array item =>
      match e with
      | .array elems => do
        let ds ← elems.mapM (fun el => makeGenericDatum fuel item el st)
        .ok (.array (.array item) ds)
      | _ => .error .badDefault
    | .map value =>
      match e with
      | .object m => do
        let ds ← m.mapM (fun kv => do
          let d ← makeGenericDatum fuel value kv.2 st
          pure (kv.1, d))
        .ok (.map (.map value) ds)
      | _ => .error .badDefault
    | .union branches =>
      match branches with
      -- `n->leafAt(0)` on a union without branches is out of range in the
      -- source (the compiler never builds such a datum); modelled as a
      -- failure.
      | [] => .error .badDefault
      | b :: _ => do
        let d ← makeGenericDatum fuel b e st
        .ok (.union (.union branches) 0 d)
    | .fixed nm sz =>
      match e with
      | .string s => .ok (.fixed (.fixed nm sz) (toBin s))
      | _ => .error .badDefault
    | .symbolic _ => .error .unknownType

/-- `makePrimitive`. -/
def makePrimitive (t : String) : Option Node :=
  if t = "null" then some .null
  else if t = "boolean" then some .bool
  else if t = "int" then some .int
  else if t = "long" then some .long
  else if t = "float" then some .float
  else if t = "double" then some .double
  else if t = "string" then some .string
  else if t = "bytes" then some .bytes
  else none

/-- The string form of `makeNode`: a primitive name, or a reference to a
previously registered named type, producing a symbolic node (the source's
`NodeSymbolic` also stores the pointer to the registered node; resolution
here goes through the symbol table, so only the name is kept). -/
def makeNodeOfString (t : String) (st : List (Name × Node)) (ns : String) :
    Except CompileErr Node :=
  match makePrimitive t with
  | some r => .ok r
  | none =>
    match stFind st (getNameStr t ns) with
    | some _ => .ok (.symbolic (getNameStr t ns))
    | none => .error .unknownType

/-- `getName(e, m, ns)` for object-form named types: a dotted `"name"` is
full; otherwise an explicit `"namespace"` string field applies, else the
enclosing namespace. -/
def getNameObj (m : List (String × Entity)) (ns : String) :
    Except CompileErr Name := do
  let name ← getStringField m "name"
  if isFullName name then .ok (parseFullName name)
  else
    match objFind m "namespace" with
    | some (.string nsv) => .ok ⟨nsv, name⟩
    | some _ => .error (.typeMismatch "namespace")
    | none => .ok ⟨ns, name⟩

/-- The symbol loop of `makeEnumNode`: every element must be a string. -/
def makeEnumSymbols : List Entity → Except CompileErr (List String)
  | [] => .ok []
  | .string s :: rest => do
    let syms ← makeEnumSymbols rest
    .ok (s :: syms)
  | _ :: _ => .error .badSymbol

/-- The `"doc"` side effect shared by the node builders: when the field is
present its extraction may fail (a non-string doc), but the resulting
string is not stored here (doc strings are not modelled on nodes). -/
def checkDoc (m : List (String × Entity)) : Except CompileErr Unit :=
  if containsField m "doc" then do
    let _ ← getDocField m
    .ok ()
  else .ok ()

/-- `makeEnumNode`. -/
def makeEnumNode (nm : Name) (m : List (String × Entity)) :
    Except CompileErr Node := do
  let v ← getArrayField m "symbols"
  let syms ← makeEnumSymbols v
  checkDoc m
  .ok (.enum nm syms)

/-- `makeFixedNode`: `int v = static_cast<int>(getLongField(e, m, "size"))`
(a 32-bit truncating cast), rejected when non-positive. -/
def makeFixedNode (nm : Name) (m : List (String × Entity)) :
    Except CompileErr Node := do
  let sz ← getLongField m "size"
  let v := toInt32 sz
  if v ≤ 0 then .error .badSize
  else do
    checkDoc m
    .ok (.fixed nm v)

/-- `makeNode(e, st, ns)`, the entity dispatch together with the object and
array (union) forms.  The symbol table is threaded explicitly in place of
the C++ by-reference mutation.  The record case registers a placeholder
`NodeRecord` under the record's name before compiling the fields (enabling
self-reference) and the C++ `swap` then fills that same object; since the
registered entry and the returned node are one object in C++, the embedding
re-registers the finished record under the name.  Field default values are
materialized (so their failures surface) but not stored.  The final
`setLogicalType(makeLogicalType(e, m))` of the source sits in a `try`/`catch`
that ignores failures and nodes do not store the overlay here, so it has no
effect on this function (see `nodeLogicalType` for the overlay itself). -/
def makeNode : Nat → Entity → List (Name × Node) → String →
    Except CompileErr (Node × List (Name × Node))
  | 0, _, _, _ => .error .recursionLimit
  | fuel + 1, e, st, ns =>
    match e with
    | .string t => do
      let n ← makeNodeOfString t st ns
      .ok (n, st)
    | .array xs => do
      let (branches, st') ← xs.foldlM
        (fun acc x => do
          let (n, st') ← makeNode fuel x acc.2 ns
          pure (acc.1 ++ [n], st'))
        (([] : List Node), st)
      .ok (.union branches, st')
    | .object m => do
      let type ← getStringField m "type"
      if type = "record" ∨ type = "error" ∨ type = "enum" ∨ type = "fixed" then do
        let nm ← getNameObj m ns
        if type = "record" ∨ type = "error" then do
          let st₁ := stInsert st nm (.record nm [] [])
          checkDoc m
          let fieldsArr ← getArrayField m "fields"
          let (fieldNames, fieldNodes, st₂) ← fieldsArr.foldlM
            (fun acc fe =>
              match fe with
              | .object fm => do
                let fname ← getStringField fm "name"
                let te ← findField fm "type"
                let (fnode, st') ← makeNode fuel te acc.2.2 nm.ns
                checkDoc fm
                match objFind fm "default" with
                | some de => do
                  let _ ← makeGenericDatum fuel fnode de st'
                  pure (acc.1 ++ [fname], acc.2.1 ++ [fnode], st')
                | none => pure (acc.1 ++ [fname], acc.2.1 ++ [fnode], st')
              | _ => .error .badObjectValue)
            (([] : List String), ([] : List Node), st₁)
          let r := Node.record nm fieldNames fieldNodes
          .ok (r, stInsert st₂ nm r)
        else do
          let result ← if type = "enum" then makeEnumNode nm m
            else makeFixedNode nm m
          .ok (result, stInsert st nm result)
      else if type = "array" then do
        let it ← findField m "items"
        let (child, st') ← makeNode fuel it st ns
        checkDoc m
        .ok (.array child, st')
      else if type = "map" then do
        let it ← findField m "values"
        let (child, st') ← makeNode fuel it st ns
        checkDoc m
        .ok (.map child, st')
      else
        match makePrimitive type with
        | some r => .ok (r, st)
        | none => .error .unknownTypeDef
    | _ => .error .invalidAvroType

/-- C7: default materialization for a union node with at least one branch
always selects branch 0 and recursively materializes the JSON default
against branch 0's schema, whatever the JSON value; hence for the union
`[int, string]` with default `"hello"` it fails with `BadDefault`, because
a JSON string does not match the first branch's expected form (a long). -/
theorem makeGenericDatum_union_spec :
    (∀ (fuel : Nat) (b : Node) (bs : List Node) (e : Entity)
        (st : List (Name × Node)),
      makeGenericDatum (fuel + 1) (.union (b :: bs)) e st =
        (makeGenericDatum fuel b e st).map
          (fun d => .union (.union (b :: bs)) 0 d)) ∧
    (∀ (fuel : Nat) (st : List (Name × Node)),
      makeGenericDatum (fuel + 2) (.union [.int, .string])
        (.string "hello") st = .error .badDefault) := by
  constructor
  · intro fuel b bs e st
    have hunf : makeGenericDatum (fuel + 1) (.union (b :: bs)) e st
        = Except.bind (makeGenericDatum fuel b e st)
            (fun d => .ok (.union (.union (b :: bs)) 0 d)) := rfl
    rw [hunf]
    cases makeGenericDatum fuel b e st <;> rfl
  · intro fuel st
    rfl

/-- Reduction of an `Except` bind on a success, for `simp`. -/
@[simp]
theorem exceptBind_ok {ε α β : Type} (a : α) (f : α → Except ε β) :
    (Except.ok a : Except ε α) >>= f = f a := rfl

/-- Reduction of an `Except` bind on a failure, for `simp`. -/
@[simp]
theorem exceptBind_error {ε α β : Type} (e : ε) (f : α → Except ε β) :
    (Except.error e : Except ε α) >>= f = .error e := rfl

/-- A long field read fails when the key is missing. -/
theorem getLongField_error_of_missing {m : List (String × Entity)}
    {k : String} (h : objFind m k = none) :
    getLongField m k = .error (.missingField k) := by
  simp [getLongField, findField, h]

/-- A long field read fails when the value is not a JSON long. -/
theorem getLongField_error_of_not_long {m : List (String × Entity)}
    {k : String} {v : Entity} (h : objFind m k = some v)
    (hv : v.etype ≠ .etLong) :
    getLongField m k = .error (.typeMismatch k) := by
  cases v <;>
    first
    | exact absurd rfl hv
    | simp [getLongField, findField, h]

/-- The decimal `try` block fails whenever the required `"precision"` is
missing or not a long, or `"scale"` is present and not a long. -/
theorem decimalParams_error_of (m : List (String × Entity))
    (hcond : objFind m "precision" = none ∨
      (∃ v, objFind m "precision" = some v ∧ v.etype ≠ .etLong) ∨
      (∃ v, objFind m "scale" = some v ∧ v.etype ≠ .etLong)) :
    ∃ err, decimalParams m = .error err := by
  rcases hcond with hP | ⟨v, hP, hv⟩ | ⟨v, hS, hv⟩
  · exact ⟨.missingField "precision",
      by simp [decimalParams, getLongField_error_of_missing hP]⟩
  · exact ⟨.typeMismatch "precision",
      by simp [decimalParams, getLongField_error_of_not_long hP hv]⟩
  · cases hp : getLongField m "precision" with
    | error e => exact ⟨e, by simp [decimalParams, hp]⟩
    | ok p =>
      refine ⟨.typeMismatch "scale", ?_⟩
      have hcont : containsField m "scale" = true := by
        simp [containsField, hS]
      simp [decimalParams, hp, hcont, getLongField_error_of_not_long hS hv]

/-- C8: a malformed `"logicalType"` attribute never fails the compile and
leaves the node's logical type NONE: a `"decimal"` whose `"precision"` is
missing or not a long, or whose present `"scale"` is not a long, yields
NONE; an unrecognized logical-type string yields NONE; a non-string
attribute yields NONE; and the node itself still compiles (shown for a
fixed node carrying a `"decimal"` annotation with no `"precision"`). -/
theorem logicalType_leniency_spec :
    (∀ m : List (String × Entity),
      objFind m "logicalType" = some (.string "decimal") →
      (objFind m "precision" = none ∨
        (∃ v, objFind m "precision" = some v ∧ v.etype ≠ .etLong) ∨
        (∃ v, objFind m "scale" = some v ∧ v.etype ≠ .etLong)) →
      nodeLogicalType m = ⟨.none, 0, 0⟩) ∧
    (∀ (m : List (String × Entity)) (t : String),
      objFind m "logicalType" = some (.string t) →
      t ∉ (["decimal", "date", "time-millis", "time-micros",
        "timestamp-millis", "timestamp-micros", "duration",
        "uuid"] : List String) →
      nodeLogicalType m = ⟨.none, 0, 0⟩) ∧
    (∀ (m : List (String × Entity)) (v : Entity),
      objFind m "logicalType" = some v → v.etype ≠ .etString →
      nodeLogicalType m = ⟨.none, 0, 0⟩) ∧
    makeNode 1 (.object [("type", .string "fixed"), ("name", .string "F"),
        ("size", .long 4), ("logicalType", .string "decimal")]) [] ""
      = .ok (.fixed ⟨"", "F"⟩ 4, [(⟨"", "F"⟩, .fixed ⟨"", "F"⟩ 4)]) ∧
    nodeLogicalType [("type", .string "fixed"), ("name", .string "F"),
        ("size", .long 4), ("logicalType", .string "decimal")]
      = ⟨.none, 0, 0⟩ := by
  refine ⟨?_, ?_, ?_, rfl, rfl⟩
  · intro m hL hcond
    obtain ⟨err, herr⟩ := decimalParams_error_of m hcond
    have hcont : containsField m "logicalType" = true := by
      simp [containsField, hL]
    simp [nodeLogicalType, makeLogicalType, hcont, getStringField, findField,
      hL, herr]
  · intro m t hL hmem
    simp only [List.mem_cons, List.not_mem_nil, or_false, not_or] at hmem
    obtain ⟨h1, h2, h3, h4, h5, h6, h7, h8⟩ := hmem
    have hcont : containsField m "logicalType" = true := by
      simp [containsField, hL]
    simp [nodeLogicalType, makeLogicalType, hcont, getStringField, findField,
      hL, h1, recognizeLogicalType, h2, h3, h4, h5, h6, h7, h8]
  · intro m v hL hv
    have hcont : containsField m "logicalType" = true := by
      simp [containsField, hL]
    have hgs : getStringField m "logicalType" = .error (.typeMismatch "logicalType") := by
      cases v <;>
        first
        | exact absurd rfl hv
        | simp [getStringField, findField, hL]
    simp [nodeLogicalType, makeLogicalType, hcont, hgs]

/-- Witness for C8: a bare `{"logicalType": "decimal"}` object (missing
`"precision"`) yields logical type NONE. -/
theorem logicalType_leniency_spec_witness :
    nodeLogicalType [("logicalType", .string "decimal")] = ⟨.none, 0, 0⟩ :=
  logicalType_leniency_spec.1 [("logicalType", .string "decimal")] rfl
    (.inl rfl)

/-- Looking up a name just inserted (or overwritten) finds the new node. -/
theorem stFind_stInsert (st : List (Name × Node)) (k : Name) (v : Node) :
    stFind (stInsert st k v) k = some v := by
  induction st with
  | nil => simp [stInsert, stFind]
  | cons hd tl ih =>
    obtain ⟨k', w⟩ := hd
    by_cases h : k' = k
    · simp [stInsert, stFind, h]
    · simp [stInsert, stFind, h, ih]

/-- C9 counterexample: a schema defining the fixed type `X` twice — the
same fully-qualified name — compiles successfully: `makeNode` returns the
union of both definitions and the symbol table retains the second, instead
of the compile being rejected with an error. -/
theorem duplicate_name_accepted_counterexample :
    makeNode 2 (.array [
        .object [("type", .string "fixed"), ("name", .string "X"),
          ("size", .long 4)],
        .object [("type", .string "fixed"), ("name", .string "X"),
          ("size", .long 8)]]) [] ""
      = .ok (.union [.fixed ⟨"", "X"⟩ 4, .fixed ⟨"", "X"⟩ 8],
          [(⟨"", "X"⟩, .fixed ⟨"", "X"⟩ 8)]) ∧
    ∀ err : CompileErr,
      makeNode 2 (.array [
        .object [("type", .string "fixed"), ("name", .string "X"),
          ("size", .long 4)],
        .object [("type", .string "fixed"), ("name", .string "X"),
          ("size", .long 8)]]) [] "" ≠ .error err := by
  have hok : makeNode 2 (.array [
      .object [("type", .string "fixed"), ("name", .string "X"),
        ("size", .long 4)],
      .object [("type", .string "fixed"), ("name", .string "X"),
        ("size", .long 8)]]) [] ""
    = .ok (.union [.fixed ⟨"", "X"⟩ 4, .fixed ⟨"", "X"⟩ 8],
        [(⟨"", "X"⟩, .fixed ⟨"", "X"⟩ 8)]) := rfl
  refine ⟨hok, fun err h => ?_⟩
  rw [hok] at h
  cases h

/-- C9 amended: the compiler does not reject a duplicate definition of a
fully-qualified name: registering a named type (here a fixed) whose name is
already present in the symbol table succeeds, and `st[nm] = result`
silently overwrites the earlier entry. -/
theorem makeNode_overwrites_duplicate (fuel : Nat) (st : List (Name × Node))
    (ns name : String) (sz : Int) (old : Node)
    (hdup : stFind st (getNameStr name ns) = some old)
    (hpos : 0 < toInt32 sz) :
    makeNode (fuel + 1)
        (.object [("type", .string "fixed"), ("name", .string name),
          ("size", .long sz)]) st ns
      = .ok (.fixed (getNameStr name ns) (toInt32 sz),
          stInsert st (getNameStr name ns)
            (.fixed (getNameStr name ns) (toInt32 sz))) ∧
    stFind (stInsert st (getNameStr name ns)
        (.fixed (getNameStr name ns) (toInt32 sz)))
      (getNameStr name ns)
      = some (.fixed (getNameStr name ns) (toInt32 sz)) := by
  refine ⟨?_, stFind_stInsert st (getNameStr name ns) _⟩
  have hname : getNameObj [("type", Entity.string "fixed"),
      ("name", Entity.string name), ("size", Entity.long sz)] ns
      = .ok (getNameStr name ns) := by
    rw [getNameObj, getNameStr]
    by_cases hfn : isFullName name <;>
      simp [getStringField, findField, objFind, hfn]
  have hfix : makeFixedNode (getNameStr name ns)
      [("type", Entity.string "fixed"), ("name", Entity.string name),
        ("size", Entity.long sz)]
      = .ok (.fixed (getNameStr name ns) (toInt32 sz)) := by
    rw [makeFixedNode]
    simp [getLongField, findField, objFind, checkDoc, containsField,
      if_neg (by omega : ¬ toInt32 sz ≤ 0)]
  simp [makeNode, getStringField, findField, objFind, hname, hfix]

/-- Witness for C9's amended claim: re-registering `X` over an existing
entry succeeds and the table afterwards holds the new node. -/
theorem makeNode_overwrites_duplicate_witness :
    makeNode 1 (.object [("type", .string "fixed"), ("name", .string "X"),
        ("size", .long 8)]) [(⟨"", "X"⟩, .fixed ⟨"", "X"⟩ 4)] ""
      = .ok (.fixed (getNameStr "X" "") (toInt32 8),
          stInsert [(⟨"", "X"⟩, .fixed ⟨"", "X"⟩ 4)] (getNameStr "X" "")
            (.fixed (getNameStr "X" "") (toInt32 8))) :=
  (makeNode_overwrites_duplicate 0 [(⟨"", "X"⟩, .fixed ⟨"", "X"⟩ 4)] "" "X" 8
    (.fixed ⟨"", "X"⟩ 4) rfl (by decide)).1

end Avro
